import Mathlib

/-!
# A verification model of the kann computation-graph engine

The repository ships the public header `kann.h`, which declares a small
neural-network library built on a computation-graph engine: graph
construction and validation (`kann_new`), forward evaluation and
reverse-mode differentiation (`kann_cost`), node lookup and feed binding
(`kann_find`, `kann_feed_dim`, `kann_feed_bind`), time-axis unrolling of
recurrent graphs (`kann_unroll`), a train/eval mode switch (`kann_switch`),
the RMSprop optimizer with gradient clipping (`kann_RMSprop`,
`kann_grad_clip`), and model persistence (`kann_save`, `kann_load`).

The implementation files are not part of the source tree, so every
operation below is modelled from the design specification's description of
the engine (data model, component design and external-interface sections)
and from the doc comments in `kann.h`.  Tensor values are rationals,
optimizer arithmetic is over the reals (the C code uses IEEE floats; real
numbers are the standard idealisation).  A node's value is a flat list of
rationals of length equal to the product of its dimensions.
-/

/-- External-binding flag bits, from `kann.h`:
`KANN_F_IN = 0x1`, `KANN_F_OUT = 0x2`, `KANN_F_TRUTH = 0x4`,
`KANN_F_COST = 0x8`. -/
def KANN_F_IN : Nat := 1

def KANN_F_OUT : Nat := 2

def KANN_F_TRUTH : Nat := 4

def KANN_F_COST : Nat := 8

/-- Modelled from the spec: the operator catalog of the computation-graph
engine (the catalog itself lives in the missing `kautodiff` implementation).
`feed` is an external data source, `var` a trainable parameter node,
`const` a fixed constant node; the rest are a representative closed set of
computing operators including the dropout/switch kind whose forward
behaviour depends on the train/eval mode bit. -/
inductive KadOp where
  | feed
  | var
  | const
  | add
  | sub
  | mul
  | square
  | reduceSum
  | dropout
  deriving DecidableEq, Repr

/-- Modelled from the spec: a vertex of the computation graph (the concrete
`kad_node_t` lives in the missing `kautodiff.h`).  A node has an operator
kind, a shape (`d`, an ordered list of dimension sizes; a zero-length shape
is a scalar), a flag bitset and an integer label for external binding, an
ordered list of predecessor indices (`child`, indices into the graph's
topologically sorted node sequence), an optional recurrent marker `pre`
pointing at the previous-step state node, and a dropout rate used only by
`dropout` nodes. -/
structure KadNode where
  op : KadOp
  d : List Nat
  flag : Nat
  label : Int
  child : List Nat
  pre : Option Nat
  rate : ℚ
  deriving DecidableEq, Repr

instance : Inhabited KadNode :=
  ⟨⟨KadOp.const, [], 0, 0, [], none, 0⟩⟩

/-- Number of dimensions of a node (`n_d` in the C struct): the length of
its shape list; a scalar has `n_d = 0`. -/
def KadNode.n_d (p : KadNode) : Nat := p.d.length

/-- Modelled from the spec: the number of scalar elements of a node's value,
the product of its dimension sizes (`kad_len` in the missing `kautodiff`
implementation); a scalar node has length 1. -/
def kad_len (p : KadNode) : Nat := p.d.prod

/-- Modelled from the spec: total Parameter (trainable-variable) store
size of a node sequence — the sum of the sizes of all trainable nodes
(`kad_size_var` in the missing `kautodiff` implementation). -/
def kad_size_var (v : List KadNode) : Nat :=
  (v.map (fun p => if p.op = KadOp.var then kad_len p else 0)).sum

/-- Modelled from the spec: total Constant store size of a node sequence
(`kad_size_const` in the missing `kautodiff` implementation). -/
def kad_size_const (v : List KadNode) : Nat :=
  (v.map (fun p => if p.op = KadOp.const then kad_len p else 0)).sum

/-- Modelled from the spec: the network object `kann_t` of `kann.h`: the
topologically ordered node sequence `v`, the three collated stores
(`x` = Parameter values, `g` = Gradient, `c` = Constant), the per-node
external feed bindings (caller-owned buffers aliased as feed-node storage),
and the per-graph train/eval mode bit consulted by switch-kind operators. -/
structure Kann where
  v : List KadNode
  x : List ℚ
  g : List ℚ
  c : List ℚ
  feeds : List (Option (List ℚ))
  isTrain : Bool
  deriving DecidableEq, Repr

/-- Parameter store size of a network, `kann_size_var` in `kann.h`. -/
def kann_size_var (a : Kann) : Nat := kad_size_var a.v

/-- Constant store size of a network, `kann_size_const` in `kann.h`. -/
def kann_size_const (a : Kann) : Nat := kad_size_const a.v

/-- Modelled from the spec: the external-binding match rule of the Feed
Binder / Lookup component (implementation missing): a node matches
`(ext_flag, ext_label)` when its flag set is a superset of `ext_flag`
(so `ext_flag = 0` matches any flags) and its label equals `ext_label`. -/
def kann_match (p : KadNode) (ext_flag : Nat) (ext_label : Int) : Bool :=
  (p.flag &&& ext_flag = ext_flag) && (p.label = ext_label)

/-- Indices of the nodes of `v` matching `(ext_flag, ext_label)`, in node
order.  Derived notion used to state lookup properties. -/
def kannMatches (v : List KadNode) (ext_flag : Nat) (ext_label : Int) : List Nat :=
  (v.enum.filter (fun ip => kann_match ip.2 ext_flag ext_label)).map Prod.fst

/-- Modelled from the spec: `kann_find` (implementation missing; declared in
`kann.h`): returns the index of the unique matching node, `-1` if no node
matches, `-2` if more than one matches. -/
def kann_find (a : Kann) (ext_flag : Nat) (ext_label : Int) : Int :=
  match kannMatches a.v ext_flag ext_label with
  | [] => -1
  | [i] => Int.ofNat i
  | _ :: _ :: _ => -2

/-- Modelled from the spec: the per-example size of a feed node, the shape
product excluding the (leading) batch dimension. -/
def kannFeedSize (p : KadNode) : Nat := (p.d.drop 1).prod

/-- Modelled from the spec: `kann_feed_dim` (implementation missing;
declared in `kann.h`): same matching rule as `kann_find`, returning the
matched node's per-example size instead of its index, with the same
`-1` / `-2` sentinels. -/
def kann_feed_dim (a : Kann) (ext_flag : Nat) (ext_label : Int) : Int :=
  match kannMatches a.v ext_flag ext_label with
  | [] => -1
  | [i] => Int.ofNat (kannFeedSize (a.v.getD i default))
  | _ :: _ :: _ => -2

/-- Modelled from the spec: the Graph Builder `kann_new` (implementation
missing; declared in `kann.h`).  The caller-assembled node set is given as
a topologically ordered pool with the designated cost node at `costIdx`.
The builder validates that the designated cost node has a zero-dimensional
(scalar) shape and fails (returns `none`, the model of a NULL pointer)
otherwise; on success it allocates the collated Parameter/Gradient/Constant
stores sized to the sums of the respective node sizes. -/
def kann_new (pool : List KadNode) (costIdx : Nat) : Option Kann :=
  match pool.get? costIdx with
  | none => none
  | some p =>
    if p.n_d = 0 then
      some { v := pool
             x := List.replicate (kad_size_var pool) 0
             g := List.replicate (kad_size_var pool) 0
             c := List.replicate (kad_size_const pool) 0
             feeds := List.replicate pool.length none
             isTrain := false }
    else none

/-- Modelled from the spec: `kann_switch` (implementation missing; declared
in `kann.h`): sets the per-graph train/eval bit (`0` for the prediction
network, non-zero for the training network). -/
def kann_switch (a : Kann) (is_train : Int) : Kann :=
  { a with isTrain := is_train ≠ 0 }

/-- Modelled from the spec: a node is time-invariant for unrolling exactly
when it is a trainable or constant node; such nodes are shared by
reference across replicas, all other nodes are replicated per time step. -/
def timeInvariant (p : KadNode) : Bool :=
  p.op = KadOp.var || p.op = KadOp.const

/-- Modelled from the spec: `kad_unrollable` (implementation missing): a
node sequence has recurrent structure when some node carries the
recurrent marker `pre` (a self-feeding state update across time steps). -/
def kad_unrollable (v : List KadNode) : Bool :=
  v.any (fun p => p.pre.isSome)

/-- Position of node `j` of `v` inside the shared (time-invariant) block
of the unrolled node sequence. -/
def sharedPos (v : List KadNode) (j : Nat) : Nat :=
  ((v.take j).filter timeInvariant).length

/-- Rank of node `j` of `v` among the time-variant (replicated) nodes. -/
def variantRank (v : List KadNode) (j : Nat) : Nat :=
  ((v.take j).filter (fun p => !timeInvariant p)).length

/-- Remap an edge target `j` of the base graph into the unrolled node
sequence, for an edge inside replica `t`: time-invariant targets point at
the shared block, time-variant targets at replica `t`'s block. -/
def unrollRemap (v : List KadNode) (t : Nat) (j : Nat) : Nat :=
  if timeInvariant (v.getD j default) then sharedPos v j
  else (v.filter timeInvariant).length
    + t * (v.filter (fun p => !timeInvariant p)).length + variantRank v j

/-- Replica `t` of the time-variant nodes of `v`: ordinary predecessor
edges are remapped into replica `t`; the recurrent marker becomes, for
`t ≥ 1`, an ordinary predecessor edge into replica `t-1` (chaining replica
`t-1`'s state output as replica `t`'s state input), and for `t = 0` the
initial state is the implicit zero state. -/
def unrollReplica (v : List KadNode) (t : Nat) : List KadNode :=
  (v.enum.filter (fun jp => !timeInvariant jp.2)).map (fun jp =>
    { jp.2 with
      child := jp.2.child.map (unrollRemap v t) ++
        (match jp.2.pre, t with
         | some q, Nat.succ t0 => [unrollRemap v t0 q]
         | _, _ => [])
      pre := none })

/-- The node sequence of the unrolled graph: one shared copy of every
time-invariant node followed by `len` replicas of the time-variant
nodes. -/
def unrollNodes (v : List KadNode) (len : Nat) : List KadNode :=
  v.filter timeInvariant ++ ((List.range len).map (unrollReplica v)).flatten

/-- Modelled from the spec: `kann_unroll` (implementation missing; declared
in `kann.h`): fails (returns `none`, the model of NULL) when the network
has no recurrent structure; otherwise produces the time-expanded graph,
borrowing (never copying) the base graph's Parameter and Constant stores
and allocating fresh gradient/feed bookkeeping for the new node
sequence. -/
def kann_unroll (a : Kann) (len : Nat) : Option Kann :=
  if kad_unrollable a.v then
    some { v := unrollNodes a.v len
           x := a.x
           g := a.g
           c := a.c
           feeds := List.replicate (unrollNodes a.v len).length none
           isTrain := a.isTrain }
  else none

/-- The value of predecessor `k` of node `p`, looked up among the already
computed node values `acc`. -/
def childVal (p : KadNode) (acc : List (List ℚ)) (k : Nat) : List ℚ :=
  match p.child.get? k with
  | some j => acc.getD j []
  | none => []

/-- Modelled from the spec: the forward rule of each operator (dispatch
table of the missing `kautodiff` implementation).  `feed` reads the bound
external buffer, `var`/`const` read this node's region of the collated
Parameter/Constant store (`xoff`/`coff` are the node's store offsets),
computing operators consume their predecessors' current values, and
`dropout` consults the train/eval bit: in train mode it samples a
stochastic mask from `rng` and scales surviving activations by
`1/(1-rate)`, in eval mode it is the identity pass-through. -/
def evalNode (x c : List ℚ) (feeds : List (Option (List ℚ))) (isTrain : Bool)
    (rng : Nat → Nat → ℚ) (i xoff coff : Nat) (acc : List (List ℚ)) (p : KadNode) : List ℚ :=
  match p.op with
  | KadOp.feed => (feeds.getD i none).getD (List.replicate (kad_len p) 0)
  | KadOp.var => (x.drop xoff).take (kad_len p)
  | KadOp.const => (c.drop coff).take (kad_len p)
  | KadOp.add => List.zipWith (· + ·) (childVal p acc 0) (childVal p acc 1)
  | KadOp.sub => List.zipWith (· - ·) (childVal p acc 0) (childVal p acc 1)
  | KadOp.mul => List.zipWith (· * ·) (childVal p acc 0) (childVal p acc 1)
  | KadOp.square => (childVal p acc 0).map (fun y => y * y)
  | KadOp.reduceSum => [(childVal p acc 0).sum]
  | KadOp.dropout =>
    let u := childVal p acc 0
    if isTrain then
      (List.range u.length).map (fun k =>
        if rng i k < p.rate then 0 else u.getD k 0 / (1 - p.rate))
    else u

/-- Modelled from the spec: the forward pass of the Evaluator
(implementation missing): operator application in topological order, each
node writing its own value region; `i` is the current node index and
`xoff`/`coff` the running Parameter/Constant store offsets. -/
def kadEvalGo (x c : List ℚ) (feeds : List (Option (List ℚ))) (isTrain : Bool)
    (rng : Nat → Nat → ℚ) :
    List KadNode → Nat → Nat → Nat → List (List ℚ) → List (List ℚ)
  | [], _, _, _, acc => acc
  | p :: rest, i, xoff, coff, acc =>
    kadEvalGo x c feeds isTrain rng rest (i + 1)
      (xoff + if p.op = KadOp.var then kad_len p else 0)
      (coff + if p.op = KadOp.const then kad_len p else 0)
      (acc ++ [evalNode x c feeds isTrain rng i xoff coff acc p])

/-- Forward evaluation of a whole network: the list of all node values in
topological order. -/
def kannForward (a : Kann) (rng : Nat → Nat → ℚ) : List (List ℚ) :=
  kadEvalGo a.x a.c a.feeds a.isTrain rng a.v 0 0 0 []

/-- Accumulate (additively) the adjoint contribution `delta` into the
gradient region of node `j`. -/
def addInto (grads : List (List ℚ)) (j : Nat) (delta : List ℚ) : List (List ℚ) :=
  grads.set j (List.zipWith (· + ·) (grads.getD j []) delta)

/-- Modelled from the spec: the adjoint rule of each operator
(backward half of the missing dispatch table): given node `i`'s gradient
region `gi`, the list of `(predecessor index, contribution)` pairs this
node accumulates into predecessor gradient regions. -/
def adjContribs (vals : List (List ℚ)) (isTrain : Bool) (rng : Nat → Nat → ℚ)
    (i : Nat) (p : KadNode) (gi : List ℚ) : List (Nat × List ℚ) :=
  match p.op with
  | KadOp.feed => []
  | KadOp.var => []
  | KadOp.const => []
  | KadOp.add =>
    match p.child with
    | [j0, j1] => [(j0, gi), (j1, gi)]
    | _ => []
  | KadOp.sub =>
    match p.child with
    | [j0, j1] => [(j0, gi), (j1, gi.map (fun y => -y))]
    | _ => []
  | KadOp.mul =>
    match p.child with
    | [j0, j1] => [(j0, List.zipWith (· * ·) gi (vals.getD j1 [])),
                   (j1, List.zipWith (· * ·) gi (vals.getD j0 []))]
    | _ => []
  | KadOp.square =>
    match p.child with
    | [j0] => [(j0, List.zipWith (fun gy y => gy * (2 * y)) gi (vals.getD j0 []))]
    | _ => []
  | KadOp.reduceSum =>
    match p.child with
    | [j0] => [(j0, List.replicate (vals.getD j0 []).length (gi.headD 0))]
    | _ => []
  | KadOp.dropout =>
    match p.child with
    | [j0] =>
      if isTrain then
        [(j0, (List.range (vals.getD j0 []).length).map (fun k =>
          if rng i k < p.rate then 0 else gi.getD k 0 / (1 - p.rate)))]
      else [(j0, gi)]
    | _ => []

/-- One backward step: node `i` accumulates its adjoint contributions into
its predecessors' gradient regions. -/
def propNode (v : List KadNode) (vals : List (List ℚ)) (isTrain : Bool)
    (rng : Nat → Nat → ℚ) (i : Nat) (grads : List (List ℚ)) : List (List ℚ) :=
  match v.get? i with
  | none => grads
  | some p =>
    (adjContribs vals isTrain rng i p (grads.getD i [])).foldl
      (fun gs jd => addInto gs jd.1 jd.2) grads

/-- Modelled from the spec: the reverse pass of the Evaluator
(implementation missing): adjoint rules applied in reverse topological
order (`kadGradGo v vals isTrain rng n grads` processes nodes
`n-1, n-2, …, 0`), accumulating additively into predecessor gradient
regions. -/
def kadGradGo (v : List KadNode) (vals : List (List ℚ)) (isTrain : Bool)
    (rng : Nat → Nat → ℚ) : Nat → List (List ℚ) → List (List ℚ)
  | 0, grads => grads
  | Nat.succ i, grads => kadGradGo v vals isTrain rng i (propNode v vals isTrain rng i grads)

/-- The all-zero per-node gradient regions of a node sequence: one zero
region per node, sized like the node's value. -/
def zeroGrads (v : List KadNode) : List (List ℚ) :=
  v.map (fun p => List.replicate (kad_len p) 0)

/-- The collated Gradient store: the per-node gradient regions of the
trainable nodes, concatenated in node order (the Gradient store is
parallel to the Parameter store). -/
def collectVarGrads : List KadNode → List (List ℚ) → List ℚ
  | [], _ => []
  | p :: rest, grads =>
    (if p.op = KadOp.var then grads.headD [] else []) ++ collectVarGrads rest (grads.drop 1)

/-- A node is a cost node matching `cost_label` when its flag set contains
the Cost bit and its label equals `cost_label`. -/
def isCostMatch (p : KadNode) (cost_label : Int) : Bool :=
  (p.flag &&& KANN_F_COST ≠ 0) && (p.label = cost_label)

/-- Index of the first node of a node sequence that is a cost node
matching `cost_label`, if any. -/
def costFirstIdxGo (cost_label : Int) : List KadNode → Option Nat
  | [] => none
  | p :: rest =>
    if isCostMatch p cost_label then some 0
    else (costFirstIdxGo cost_label rest).map (· + 1)

/-- Index of the first cost node matching `cost_label`, if any. -/
def costFirstIdx (a : Kann) (cost_label : Int) : Option Nat :=
  costFirstIdxGo cost_label a.v

/-- Modelled from the spec: `kann_cost` (implementation missing; declared
in `kann.h`): runs the forward pass and returns the scalar value of the
first cost node matching `cost_label`; when `cal_grad` is set it
additionally zeros the Gradient store, seeds the matching cost node's
gradient to 1, runs the adjoint rules in reverse topological order and
stores the collated trainable-node gradients in `g`. -/
def kann_cost (a : Kann) (rng : Nat → Nat → ℚ) (cost_label : Int) (cal_grad : Bool) :
    ℚ × Kann :=
  match costFirstIdx a cost_label with
  | none => (0, a)
  | some ci =>
    let vals := kannForward a rng
    let costv := (vals.getD ci []).headD 0
    if cal_grad then
      (costv, { a with
        g := collectVarGrads a.v
          (kadGradGo a.v vals a.isTrain rng a.v.length ((zeroGrads a.v).set ci [1])) })
    else (costv, a)

/-- A node is a feed node matching `(ext_flag, ext_label)` when it is of
feed kind and satisfies the external-binding match rule. -/
def isFeedMatch (p : KadNode) (ext_flag : Nat) (ext_label : Int) : Bool :=
  (p.op == KadOp.feed) && kann_match p ext_flag ext_label

/-- Modelled from the spec: the binding loop of `kann_feed_bind`
(implementation missing): walk the nodes in order, and at every matching
feed node alias the next caller-supplied buffer as the node's value
storage, counting the matches; non-matching nodes keep their previous
binding. -/
def feedBindGo (ext_flag : Nat) (ext_label : Int) :
    List KadNode → List (Option (List ℚ)) → List (List ℚ) →
    List (Option (List ℚ)) × Nat
  | [], _, _ => ([], 0)
  | p :: rest, olds, xs =>
    if isFeedMatch p ext_flag ext_label then
      let r := feedBindGo ext_flag ext_label rest (olds.drop 1) (xs.drop 1)
      (xs.get? 0 :: r.1, r.2 + 1)
    else
      let r := feedBindGo ext_flag ext_label rest (olds.drop 1) xs
      (olds.getD 0 none :: r.1, r.2)

/-- Modelled from the spec: `kann_feed_bind` (implementation missing;
declared in `kann.h`): binds the caller's buffers to the matching feed
nodes in node order and returns the number of matching feed nodes. -/
def kann_feed_bind (a : Kann) (ext_flag : Nat) (ext_label : Int) (x : List (List ℚ)) :
    Kann × Int :=
  let r := feedBindGo ext_flag ext_label a.v a.feeds x
  ({ a with feeds := r.1 }, Int.ofNat r.2)

/-- Modelled from the spec: the small positive constant ε guarding the
RMSprop update against division by zero. -/
noncomputable def kannRMSpropEps : ℝ := 1 / 1000000

/-- Modelled from the spec: `kann_RMSprop` (implementation missing;
declared in `kann.h`): for each of the `n` parameters, update the running
squared-gradient accumulator `r i` to `decay * r i + (1 - decay) * g i ^ 2`
and then the parameter `t i` by subtracting
`effectiveRate * g i / sqrt(newAccum + ε)`, where the effective rate is the
per-parameter rate `h i` when `h` is supplied and the base rate `h0`
otherwise.  Returns the updated parameter and accumulator arrays. -/
noncomputable def kann_RMSprop (n : Nat) (h0 : ℝ) (h : Option (Nat → ℝ)) (decay : ℝ)
    (g t r : Nat → ℝ) : (Nat → ℝ) × (Nat → ℝ) :=
  (fun i => if i < n then
      t i - (h.map (fun hh => hh i)).getD h0 * g i /
        Real.sqrt ((decay * r i + (1 - decay) * g i ^ 2) + kannRMSpropEps)
    else t i,
   fun i => if i < n then decay * r i + (1 - decay) * g i ^ 2 else r i)

/-- The L2 norm of a gradient vector. -/
noncomputable def l2norm (g : List ℝ) : ℝ :=
  Real.sqrt ((g.map (fun y => y ^ 2)).sum)

/-- Modelled from the spec: `kann_grad_clip` (implementation missing;
declared in `kann.h`): computes the gradient's L2 norm; if it exceeds the
threshold, rescales every component by `thres / norm`; returns the
pre-clip norm together with the (possibly rescaled) gradient. -/
noncomputable def kann_grad_clip (thres : ℝ) (g : List ℝ) : ℝ × List ℝ :=
  let s := l2norm g
  if thres < s then (s, g.map (fun y => y * (thres / s))) else (s, g)

/-- A token of the persisted model stream: a natural number, an integer or
a rational scalar. -/
inductive SaveTok where
  | tN : Nat → SaveTok
  | tI : Int → SaveTok
  | tQ : ℚ → SaveTok
  deriving DecidableEq, Repr

/-- Numeric code of an operator kind in the persisted model stream. -/
def opCode : KadOp → Nat
  | KadOp.feed => 0
  | KadOp.var => 1
  | KadOp.const => 2
  | KadOp.add => 3
  | KadOp.sub => 4
  | KadOp.mul => 5
  | KadOp.square => 6
  | KadOp.reduceSum => 7
  | KadOp.dropout => 8

/-- Decode an operator-kind code; `none` on an unknown code. -/
def decodeOp : Nat → Option KadOp
  | 0 => some KadOp.feed
  | 1 => some KadOp.var
  | 2 => some KadOp.const
  | 3 => some KadOp.add
  | 4 => some KadOp.sub
  | 5 => some KadOp.mul
  | 6 => some KadOp.square
  | 7 => some KadOp.reduceSum
  | 8 => some KadOp.dropout
  | _ + 9 => none

/-- Encode a length-prefixed list of naturals. -/
def encNats (ns : List Nat) : List SaveTok :=
  SaveTok.tN ns.length :: ns.map SaveTok.tN

/-- Decode exactly `k` natural-number tokens. -/
def decNatsGo : Nat → List SaveTok → Option (List Nat × List SaveTok)
  | 0, toks => some ([], toks)
  | Nat.succ k, SaveTok.tN n :: toks =>
    match decNatsGo k toks with
    | some (ns, rest) => some (n :: ns, rest)
    | none => none
  | Nat.succ _, _ => none

/-- Decode a length-prefixed list of naturals. -/
def decNats : List SaveTok → Option (List Nat × List SaveTok)
  | SaveTok.tN k :: toks => decNatsGo k toks
  | _ => none

/-- Encode a length-prefixed list of rational scalars (a raw store). -/
def encQs (qs : List ℚ) : List SaveTok :=
  SaveTok.tN qs.length :: qs.map SaveTok.tQ

/-- Decode exactly `k` rational-scalar tokens. -/
def decQsGo : Nat → List SaveTok → Option (List ℚ × List SaveTok)
  | 0, toks => some ([], toks)
  | Nat.succ k, SaveTok.tQ q :: toks =>
    match decQsGo k toks with
    | some (qs, rest) => some (q :: qs, rest)
    | none => none
  | Nat.succ _, _ => none

/-- Decode a length-prefixed list of rational scalars. -/
def decQs : List SaveTok → Option (List ℚ × List SaveTok)
  | SaveTok.tN k :: toks => decQsGo k toks
  | _ => none

/-- Modelled from the spec: the per-node record of the persisted model
layout (serializer implementation missing): operator kind, shape, flag
bitset, label, predecessor list, recurrent marker, dropout rate. -/
def encodeNode (p : KadNode) : List SaveTok :=
  SaveTok.tN (opCode p.op) :: encNats p.d ++
    [SaveTok.tN p.flag, SaveTok.tI p.label] ++ encNats p.child ++
    (match p.pre with
     | none => [SaveTok.tN 0]
     | some q => [SaveTok.tN 1, SaveTok.tN q]) ++
    [SaveTok.tQ p.rate]

/-- Decode one per-node record; `none` on a truncated or corrupt stream. -/
def decodeNode : List SaveTok → Option (KadNode × List SaveTok)
  | SaveTok.tN oc :: toks1 =>
    match decodeOp oc with
    | none => none
    | some op =>
      match decNats toks1 with
      | none => none
      | some (d, toks2) =>
        match toks2 with
        | SaveTok.tN flag :: SaveTok.tI label :: toks3 =>
          match decNats toks3 with
          | none => none
          | some (child, toks4) =>
            match toks4 with
            | SaveTok.tN 0 :: SaveTok.tQ rate :: toks5 =>
              some ({ op := op, d := d, flag := flag, label := label,
                      child := child, pre := none, rate := rate }, toks5)
            | SaveTok.tN 1 :: SaveTok.tN q :: SaveTok.tQ rate :: toks5 =>
              some ({ op := op, d := d, flag := flag, label := label,
                      child := child, pre := some q, rate := rate }, toks5)
            | _ => none
        | _ => none
  | _ => none

/-- Decode exactly `k` per-node records. -/
def decodeNodes : Nat → List SaveTok → Option (List KadNode × List SaveTok)
  | 0, toks => some ([], toks)
  | Nat.succ k, toks =>
    match decodeNode toks with
    | none => none
    | some (p, rest) =>
      match decodeNodes k rest with
      | some (ps, rest2) => some (p :: ps, rest2)
      | none => none

/-- The version tag of the persisted model layout (`KANN_VERSION` is
`"r368"` in `kann.h`). -/
def kannSaveVersion : Nat := 368

/-- Modelled from the spec: `kann_save` (implementation missing; declared
in `kann.h`): a version tag, the node count, the per-node records in
topological order, then the raw Parameter store and the raw Constant store
in collated layout order. -/
def kann_save (a : Kann) : List SaveTok :=
  SaveTok.tN kannSaveVersion :: SaveTok.tN a.v.length ::
    (a.v.map encodeNode).flatten ++ encQs a.x ++ encQs a.c

/-- Modelled from the spec: `kann_load` (implementation missing; declared
in `kann.h`): parses the persisted layout and reconstructs the network
with a zeroed Gradient store, no feed bindings and the default (eval)
mode; fails (returns `none`) on a truncated or corrupt stream. -/
def kann_load (toks : List SaveTok) : Option Kann :=
  match toks with
  | SaveTok.tN ver :: SaveTok.tN n :: toks1 =>
    if ver = kannSaveVersion then
      match decodeNodes n toks1 with
      | none => none
      | some (v, toks2) =>
        match decQs toks2 with
        | none => none
        | some (x, toks3) =>
          match decQs toks3 with
          | none => none
          | some (cst, toks4) =>
            if toks4 = [] then
              some { v := v, x := x, g := List.replicate x.length 0, c := cst,
                     feeds := List.replicate v.length none, isTrain := false }
            else none
    else none
  | _ => none

/-- C5: `kann_new` fails by returning NULL (modelled as `none`, never a
partially constructed usable graph) whenever the designated cost node does
not have a zero-dimensional (scalar) shape, and for every scalar cost node
it returns a non-null graph handle. -/
theorem kann_new_scalar_cost_validation (pool : List KadNode) (costIdx : Nat)
    (p : KadNode) (h : pool.get? costIdx = some p) :
    (p.n_d ≠ 0 → kann_new pool costIdx = none) ∧
    (p.n_d = 0 → (kann_new pool costIdx).isSome = true) := by
  rw [List.get?_eq_getElem?] at h
  constructor
  · intro hnd
    simp [kann_new, h, hnd]
  · intro hnd
    simp [kann_new, h, hnd]

theorem kann_new_scalar_cost_validation_witness :
    ([({ op := KadOp.const, d := [], flag := 8, label := 0, child := [],
         pre := none, rate := 0 } : KadNode)].get? 0 =
      some ({ op := KadOp.const, d := [], flag := 8, label := 0, child := [],
              pre := none, rate := 0 } : KadNode)) ∧
    (({ op := KadOp.const, d := [], flag := 8, label := 0, child := [],
        pre := none, rate := 0 } : KadNode).n_d = 0 →
      (kann_new [({ op := KadOp.const, d := [], flag := 8, label := 0, child := [],
                    pre := none, rate := 0 } : KadNode)] 0).isSome = true) :=
  ⟨rfl, (kann_new_scalar_cost_validation
    [({ op := KadOp.const, d := [], flag := 8, label := 0, child := [],
        pre := none, rate := 0 } : KadNode)] 0
    ({ op := KadOp.const, d := [], flag := 8, label := 0, child := [],
       pre := none, rate := 0 } : KadNode) rfl).2⟩

/-- C9: `kann_cost` with `cal_grad` false leaves the entire collated
Gradient store `g` unchanged: gradients are neither zeroed, seeded, nor
accumulated when gradient computation is not requested. -/
theorem kann_cost_no_grad_frame (a : Kann) (rng : Nat → Nat → ℚ) (cost_label : Int) :
    ((kann_cost a rng cost_label false).2).g = a.g := by
  unfold kann_cost
  cases h : costFirstIdx a cost_label <;> simp

/-- C3: one `kann_RMSprop` call updates, for every index `i < n`, the
accumulator to `decay * r i + (1 - decay) * g i ^ 2` and the parameter to
`t i - eff * g i / sqrt(newAccum + ε)`, where `eff` is the per-parameter
rate when supplied and the base rate otherwise, and `ε` is a small
positive constant guarding against division by zero. -/
theorem kann_RMSprop_update (n : Nat) (h0 : ℝ) (h : Option (Nat → ℝ)) (decay : ℝ)
    (g t r : Nat → ℝ) (i : Nat) (hi : i < n) :
    (kann_RMSprop n h0 h decay g t r).2 i = decay * r i + (1 - decay) * g i ^ 2 ∧
    (kann_RMSprop n h0 h decay g t r).1 i =
      t i - (h.map (fun hh => hh i)).getD h0 * g i /
        Real.sqrt ((kann_RMSprop n h0 h decay g t r).2 i + kannRMSpropEps) ∧
    0 < kannRMSpropEps := by
  refine ⟨by simp [kann_RMSprop, hi], by simp [kann_RMSprop, hi], ?_⟩
  rw [kannRMSpropEps]
  norm_num

theorem kann_RMSprop_update_witness :
    (0 : Nat) < 1 ∧
    ((kann_RMSprop 1 2 none 0 (fun _ => 3) (fun _ => 5) (fun _ => 7)).2 0 =
        0 * (7 : ℝ) + (1 - 0) * 3 ^ 2 ∧
      (kann_RMSprop 1 2 none 0 (fun _ => 3) (fun _ => 5) (fun _ => 7)).1 0 =
        5 - 2 * 3 /
          Real.sqrt ((kann_RMSprop 1 2 none 0 (fun _ => 3) (fun _ => 5) (fun _ => 7)).2 0 +
            kannRMSpropEps) ∧
      0 < kannRMSpropEps) :=
  ⟨Nat.zero_lt_one,
    kann_RMSprop_update 1 2 none 0 (fun _ => 3) (fun _ => 5) (fun _ => 7) 0 Nat.zero_lt_one⟩

theorem kann_grad_clip_pos (thres : ℝ) (g : List ℝ) (h : thres < l2norm g) :
    kann_grad_clip thres g = (l2norm g, g.map (fun y => y * (thres / l2norm g))) := by
  simp [kann_grad_clip, h]

theorem kann_grad_clip_le (thres : ℝ) (g : List ℝ) (h : ¬ thres < l2norm g) :
    kann_grad_clip thres g = (l2norm g, g) := by
  simp [kann_grad_clip, h]

theorem sum_sq_map_mul (g : List ℝ) (cc : ℝ) :
    ((g.map (fun y => y * cc)).map (fun y => y ^ 2)).sum =
      cc ^ 2 * ((g.map (fun y => y ^ 2)).sum) := by
  induction g with
  | nil => simp
  | cons y ys ih =>
    simp only [List.map_cons, List.sum_cons, ih]
    ring

theorem l2norm_map_mul (g : List ℝ) (cc : ℝ) :
    l2norm (g.map (fun y => y * cc)) = |cc| * l2norm g := by
  rw [l2norm, sum_sq_map_mul, Real.sqrt_mul (sq_nonneg cc), Real.sqrt_sq_eq_abs, l2norm]

theorem l2norm_single (y : ℝ) : l2norm [y] = |y| := by
  simp [l2norm, Real.sqrt_sq_eq_abs]

/-- C4 counterexample: with a negative threshold a second call immediately
after a clipping call does modify the gradient again: clipping `[1]` at
threshold `-1` yields `[-1]`, and clipping that result once more yields
`[1]`. -/
theorem kann_grad_clip_idem_neg_thres_cex :
    ¬ (kann_grad_clip (-1) ((kann_grad_clip (-1) ([1] : List ℝ)).2)).2 =
        (kann_grad_clip (-1) ([1] : List ℝ)).2 := by
  have e1 : l2norm ([1] : List ℝ) = 1 := by
    rw [l2norm_single]
    norm_num
  have h1 : kann_grad_clip (-1) ([1] : List ℝ) = (1, [-1]) := by
    rw [kann_grad_clip_pos (-1) [1] (by rw [e1]; norm_num), e1]
    norm_num
  have e2 : l2norm ([-1] : List ℝ) = 1 := by
    rw [l2norm_single]
    norm_num
  have h2 : kann_grad_clip (-1) ([-1] : List ℝ) = (1, [1]) := by
    rw [kann_grad_clip_pos (-1) [-1] (by rw [e2]; norm_num), e2]
    norm_num
  rw [h1, h2]
  norm_num

/-- C4 (amended): `kann_grad_clip` returns the pre-clip L2 norm of `g`,
rescales every component by `thres / norm` exactly when the norm exceeds
`thres`, and leaves `g` unmodified when the norm is at or below `thres`;
for every nonnegative threshold, a second call immediately after a
clipping call does not further modify the gradient. -/
theorem kann_grad_clip_spec (thres : ℝ) (g : List ℝ) :
    (kann_grad_clip thres g).1 = l2norm g ∧
    (thres < l2norm g →
      (kann_grad_clip thres g).2 = g.map (fun y => y * (thres / l2norm g))) ∧
    (l2norm g ≤ thres → (kann_grad_clip thres g).2 = g) ∧
    (0 ≤ thres →
      (kann_grad_clip thres (kann_grad_clip thres g).2).2 = (kann_grad_clip thres g).2) := by
  by_cases hlt : thres < l2norm g
  · rw [kann_grad_clip_pos thres g hlt]
    refine ⟨rfl, fun _ => rfl, fun hle => absurd hlt (not_lt.mpr hle), fun hth => ?_⟩
    have hspos : 0 < l2norm g := lt_of_le_of_lt hth hlt
    have hnorm2 : l2norm (g.map (fun y => y * (thres / l2norm g))) = thres := by
      rw [l2norm_map_mul, abs_of_nonneg (div_nonneg hth (le_of_lt hspos)),
        div_mul_cancel₀ thres (ne_of_gt hspos)]
    rw [kann_grad_clip_le thres _ (by rw [hnorm2]; exact lt_irrefl thres)]
  · rw [kann_grad_clip_le thres g hlt]
    refine ⟨rfl, fun hc => absurd hc hlt, fun _ => rfl, fun _ => ?_⟩
    rw [kann_grad_clip_le thres g hlt]

theorem kann_grad_clip_spec_witness :
    (0 : ℝ) ≤ 0 ∧
    (kann_grad_clip 0 ((kann_grad_clip 0 ([1] : List ℝ)).2)).2 =
      (kann_grad_clip 0 ([1] : List ℝ)).2 :=
  ⟨le_refl 0, (kann_grad_clip_spec 0 [1]).2.2.2 (le_refl 0)⟩

theorem timeInvariant_false_not_var (p : KadNode) (h : timeInvariant p = false) :
    p.op ≠ KadOp.var := by
  intro hop
  rw [timeInvariant, hop] at h
  simp at h

theorem kad_size_var_cons (p : KadNode) (rest : List KadNode) :
    kad_size_var (p :: rest) =
      (if p.op = KadOp.var then kad_len p else 0) + kad_size_var rest := by
  simp [kad_size_var]

theorem kad_size_var_append (u w : List KadNode) :
    kad_size_var (u ++ w) = kad_size_var u + kad_size_var w := by
  simp [kad_size_var]

theorem kad_size_var_filter_timeInvariant (v : List KadNode) :
    kad_size_var (v.filter timeInvariant) = kad_size_var v := by
  induction v with
  | nil => rfl
  | cons p rest ih =>
    rw [List.filter_cons]
    by_cases h : timeInvariant p
    · rw [if_pos (by simp [h]), kad_size_var_cons, kad_size_var_cons, ih]
    · rw [if_neg (by simp [h]), ih, kad_size_var_cons,
        if_neg (timeInvariant_false_not_var p (by simpa using h)), zero_add]

theorem kad_size_var_unrollReplica (v : List KadNode) (t : Nat) :
    kad_size_var (unrollReplica v t) = 0 := by
  rw [unrollReplica, kad_size_var, List.map_map]
  apply List.sum_eq_zero
  intro y hy
  rw [List.mem_map] at hy
  obtain ⟨jp, hjp, hyeq⟩ := hy
  rw [List.mem_filter] at hjp
  have hvar : jp.2.op ≠ KadOp.var :=
    timeInvariant_false_not_var _ (by simpa using hjp.2)
  rw [← hyeq]
  simp [hvar]

theorem kad_size_var_flatten_zero (ls : List (List KadNode))
    (h : ∀ u ∈ ls, kad_size_var u = 0) : kad_size_var ls.flatten = 0 := by
  induction ls with
  | nil => rfl
  | cons u rest ih =>
    rw [List.flatten_cons, kad_size_var_append, h u (List.mem_cons_self u rest),
      ih (fun w hw => h w (List.mem_cons_of_mem u hw))]

theorem kad_size_var_unrollNodes (v : List KadNode) (len : Nat) :
    kad_size_var (unrollNodes v len) = kad_size_var v := by
  rw [unrollNodes, kad_size_var_append, kad_size_var_filter_timeInvariant,
    kad_size_var_flatten_zero, Nat.add_zero]
  intro u hu
  rw [List.mem_map] at hu
  obtain ⟨t, _, rfl⟩ := hu
  exact kad_size_var_unrollReplica v t

/-- C1: for every graph that unrolls successfully and every unroll length
`len ≥ 1`, the Parameter (trainable-variable) store size of the graph
returned by `kann_unroll` equals the Parameter store size of the base
graph: replicas reference, never duplicate, trainable storage. -/
theorem kann_unroll_preserves_size_var (a : Kann) (len : Nat) (a2 : Kann)
    (_hlen : 1 ≤ len) (h : kann_unroll a len = some a2) :
    kann_size_var a2 = kann_size_var a := by
  unfold kann_unroll at h
  split at h
  · injection h with h2
    rw [← h2, kann_size_var, kann_size_var]
    exact kad_size_var_unrollNodes a.v len
  · simp at h

/-- A small recurrent network: a trainable weight, a per-step input feed
and a self-recurrent state-update node. -/
def exR : Kann :=
  { v := [{ op := KadOp.var, d := [2], flag := 0, label := 0, child := [],
            pre := none, rate := 0 },
          { op := KadOp.feed, d := [1], flag := 1, label := 0, child := [],
            pre := none, rate := 0 },
          { op := KadOp.add, d := [1], flag := 0, label := 0, child := [0, 1],
            pre := some 2, rate := 0 }],
    x := [1, 2], g := [0, 0], c := [], feeds := [none, none, none], isTrain := false }

/-- The three-step unrolling of `exR`. -/
def exRU : Kann :=
  { v := unrollNodes exR.v 3, x := exR.x, g := exR.g, c := exR.c,
    feeds := List.replicate (unrollNodes exR.v 3).length none, isTrain := exR.isTrain }

theorem kann_unroll_preserves_size_var_witness :
    1 ≤ 3 ∧ kann_unroll exR 3 = some exRU ∧ kann_size_var exRU = kann_size_var exR :=
  ⟨by decide, by decide,
    kann_unroll_preserves_size_var exR 3 exRU (by decide) (by decide)⟩

theorem kannMatches_nodup (v : List KadNode) (f : Nat) (l : Int) :
    (kannMatches v f l).Nodup := by
  have hsub : (kannMatches v f l).Sublist (v.enum.map Prod.fst) :=
    (List.filter_sublist _).map Prod.fst
  rw [List.enum_map_fst] at hsub
  exact (List.nodup_range _).sublist hsub

theorem mem_kannMatches (v : List KadNode) (f : Nat) (l : Int) (i : Nat) :
    i ∈ kannMatches v f l ↔ ∃ p, v.get? i = some p ∧ kann_match p f l = true := by
  rw [kannMatches]
  constructor
  · intro hi
    rw [List.mem_map] at hi
    obtain ⟨pr, hpr, rfl⟩ := hi
    rw [List.mem_filter] at hpr
    refine ⟨pr.2, ?_, hpr.2⟩
    rw [List.get?_eq_getElem?]
    exact List.mem_enum_iff_getElem?.mp hpr.1
  · rintro ⟨p, hp, hm⟩
    rw [List.mem_map]
    refine ⟨(i, p), ?_, rfl⟩
    rw [List.mem_filter]
    refine ⟨List.mk_mem_enum_iff_getElem?.mpr ?_, hm⟩
    rw [← List.get?_eq_getElem?]
    exact hp

/-- Node `i` of `v` exists and satisfies the external-binding match rule
for `(f, l)`. -/
def kannMatchedIdx (v : List KadNode) (f : Nat) (l : Int) (i : Nat) : Prop :=
  ∃ p, v.get? i = some p ∧ kann_match p f l = true

instance instDecKannMatchedIdx (v : List KadNode) (f : Nat) (l : Int) (i : Nat) :
    Decidable (kannMatchedIdx v f l i) :=
  decidable_of_iff (i ∈ kannMatches v f l) (mem_kannMatches v f l i)

/-- C6: `kann_find` returns the unique index of the node whose flag set is
a superset of `ext_flag` (with `ext_flag = 0` matching any flags) and
whose label equals `ext_label` when exactly one such node exists, returns
`-1` (NotFound) when no node matches, and `-2` (Ambiguous) when more than
one node matches; `kann_feed_dim` applies the same matching rule and
returns the matched node's per-example size instead of its index, with the
same `-1` / `-2` sentinels. -/
theorem kann_find_feed_dim_spec (a : Kann) (f : Nat) (l : Int) :
    ((∀ i, ¬ kannMatchedIdx a.v f l i) →
      kann_find a f l = -1 ∧ kann_feed_dim a f l = -1) ∧
    (∀ i, kannMatchedIdx a.v f l i → (∀ j, kannMatchedIdx a.v f l j → j = i) →
      kann_find a f l = Int.ofNat i ∧
      kann_feed_dim a f l = Int.ofNat (kannFeedSize (a.v.getD i default))) ∧
    (∀ i j, i ≠ j → kannMatchedIdx a.v f l i → kannMatchedIdx a.v f l j →
      kann_find a f l = -2 ∧ kann_feed_dim a f l = -2) ∧
    (∀ p : KadNode, kann_match p f l = true ↔ (p.flag &&& f = f ∧ p.label = l)) ∧
    (∀ p : KadNode, p.label = l → kann_match p 0 l = true) := by
  refine ⟨?_, ?_, ?_, ?_, ?_⟩
  · intro hnone
    have hnil : kannMatches a.v f l = [] := by
      rw [List.eq_nil_iff_forall_not_mem]
      intro i hi
      exact hnone i ((mem_kannMatches _ _ _ i).mp hi)
    rw [kann_find, kann_feed_dim, hnil]
    exact ⟨rfl, rfl⟩
  · intro i hi huniq
    have hmem : i ∈ kannMatches a.v f l := (mem_kannMatches _ _ _ i).mpr hi
    have hsing : kannMatches a.v f l = [i] := by
      have hall : ∀ j ∈ kannMatches a.v f l, j = i := fun j hj =>
        huniq j ((mem_kannMatches _ _ _ j).mp hj)
      rcases hq : kannMatches a.v f l with _ | ⟨k, rest⟩
      · rw [hq] at hmem
        exact absurd hmem (List.not_mem_nil i)
      · have hk : k = i := hall k (by rw [hq]; exact List.mem_cons_self _ _)
        rcases rest with _ | ⟨k2, rest2⟩
        · rw [hk]
        · exfalso
          have hk2 : k2 = i :=
            hall k2 (by rw [hq]; exact List.mem_cons_of_mem _ (List.mem_cons_self _ _))
          have hnd := kannMatches_nodup a.v f l
          rw [hq, hk, hk2] at hnd
          exact (List.nodup_cons.mp hnd).1 (List.mem_cons_self i rest2)
    rw [kann_find, kann_feed_dim, hsing]
    exact ⟨rfl, rfl⟩
  · intro i j hne hi hj
    rcases hq : kannMatches a.v f l with _ | ⟨k, _ | ⟨k2, rest⟩⟩
    · exfalso
      have hmi := (mem_kannMatches _ _ _ i).mpr hi
      rw [hq] at hmi
      exact absurd hmi (List.not_mem_nil i)
    · exfalso
      have hmi := (mem_kannMatches _ _ _ i).mpr hi
      have hmj := (mem_kannMatches _ _ _ j).mpr hj
      rw [hq] at hmi hmj
      simp only [List.mem_singleton] at hmi hmj
      exact hne (hmi.trans hmj.symm)
    · rw [kann_find, kann_feed_dim, hq]
      exact ⟨rfl, rfl⟩
  · intro p
    rw [kann_match]
    simp [Bool.and_eq_true]
  · intro p hp
    rw [kann_match]
    simp [hp]

/-- A small feed-forward network with a single input feed node and a
scalar cost node, used as a concrete instance of the lookup properties. -/
def exF : Kann :=
  { v := [{ op := KadOp.feed, d := [4, 3], flag := 1, label := 0, child := [],
            pre := none, rate := 0 },
          { op := KadOp.square, d := [], flag := 8, label := 0, child := [0],
            pre := none, rate := 0 }],
    x := [], g := [], c := [], feeds := [none, none], isTrain := false }

theorem kann_find_feed_dim_spec_witness :
    kannMatchedIdx exF.v 1 0 0 ∧ (∀ j, kannMatchedIdx exF.v 1 0 j → j = 0) ∧
    kann_find exF 1 0 = Int.ofNat 0 ∧ kann_feed_dim exF 1 0 = Int.ofNat 3 := by
  have h0 : kannMatchedIdx exF.v 1 0 0 := by decide
  have hu : ∀ j, kannMatchedIdx exF.v 1 0 j → j = 0 := by
    intro j hj
    have hm : j ∈ kannMatches exF.v 1 0 := (mem_kannMatches _ _ _ j).mpr hj
    have hq : kannMatches exF.v 1 0 = [0] := by decide
    rw [hq] at hm
    simpa using hm
  have hc := (kann_find_feed_dim_spec exF 1 0).2.1 0 h0 hu
  exact ⟨h0, hu, hc.1, hc.2⟩

theorem feedBindGo_count (f : Nat) (l : Int) (v : List KadNode)
    (olds : List (Option (List ℚ))) (xs : List (List ℚ)) :
    (feedBindGo f l v olds xs).2 =
      (v.filter (fun p => isFeedMatch p f l)).length := by
  induction v generalizing olds xs with
  | nil => rfl
  | cons p rest ih =>
    by_cases h : isFeedMatch p f l = true
    · simp [feedBindGo, List.filter_cons, h, ih]
    · simp [feedBindGo, List.filter_cons, h, ih]

theorem feedBindGo_get (f : Nat) (l : Int) (v : List KadNode)
    (olds : List (Option (List ℚ))) (xs : List (List ℚ)) (i : Nat) (hi : i < v.length) :
    (feedBindGo f l v olds xs).1.get? i =
      some (if isFeedMatch (v.getD i default) f l = true
            then xs.get? (((v.take i).filter (fun p => isFeedMatch p f l)).length)
            else olds.getD i none) := by
  induction v generalizing olds xs i with
  | nil => exact absurd hi (by simp)
  | cons p rest ih =>
    by_cases h : isFeedMatch p f l = true
    · cases i with
      | zero => simp [feedBindGo, h]
      | succ i0 =>
        have hi0 : i0 < rest.length := by simpa using hi
        simp only [feedBindGo, if_pos h, List.get?_cons_succ]
        rw [ih (olds.drop 1) (xs.drop 1) i0 hi0]
        congr 1
        rw [List.getD_cons_succ, List.take_succ_cons, List.filter_cons, if_pos h,
          List.length_cons]
        by_cases h2 : isFeedMatch (rest.getD i0 default) f l = true
        · rw [if_pos h2, if_pos h2, List.get?_eq_getElem?, List.get?_eq_getElem?,
            List.getElem?_drop, Nat.add_comm]
        · rw [if_neg h2, if_neg h2, List.getD_eq_getElem?_getD,
            List.getD_eq_getElem?_getD, List.getElem?_drop, Nat.add_comm]
    · cases i with
      | zero =>
        simp [feedBindGo, h, List.getD_eq_getElem?_getD]
      | succ i0 =>
        have hi0 : i0 < rest.length := by simpa using hi
        simp only [feedBindGo, if_neg h, List.get?_cons_succ]
        rw [ih (olds.drop 1) xs i0 hi0]
        congr 1
        rw [List.getD_cons_succ, List.take_succ_cons, List.filter_cons, if_neg h]
        by_cases h2 : isFeedMatch (rest.getD i0 default) f l = true
        · rw [if_pos h2, if_pos h2]
        · rw [if_neg h2, if_neg h2, List.getD_eq_getElem?_getD,
            List.getD_eq_getElem?_getD, List.getElem?_drop, Nat.add_comm]

/-- C10: `kann_feed_bind` returns the number of feed nodes matching the
flag and label, always `≥ 0` (a query matching zero nodes returns the
count `0`, not an error sentinel, unlike `kann_find`), and binds the
caller-supplied buffers one per matching node in node order: the matching
node preceded by `j` matches receives buffer `j`, and every non-matching
node keeps its previous binding. -/
theorem kann_feed_bind_spec (a : Kann) (f : Nat) (l : Int) (x : List (List ℚ)) :
    (kann_feed_bind a f l x).2 =
      Int.ofNat ((a.v.filter (fun p => isFeedMatch p f l)).length) ∧
    0 ≤ (kann_feed_bind a f l x).2 ∧
    (∀ i, i < a.v.length → isFeedMatch (a.v.getD i default) f l = true →
      (kann_feed_bind a f l x).1.feeds.get? i =
        some (x.get? (((a.v.take i).filter (fun p => isFeedMatch p f l)).length))) ∧
    (∀ i, i < a.v.length → isFeedMatch (a.v.getD i default) f l = false →
      (kann_feed_bind a f l x).1.feeds.get? i = some (a.feeds.getD i none)) := by
  refine ⟨?_, ?_, ?_, ?_⟩
  · rw [kann_feed_bind]
    rw [feedBindGo_count]
  · rw [kann_feed_bind]
    exact Int.ofNat_nonneg _
  · intro i hi hm
    rw [kann_feed_bind]
    rw [feedBindGo_get f l a.v a.feeds x i hi, if_pos hm]
  · intro i hi hm
    rw [kann_feed_bind]
    rw [feedBindGo_get f l a.v a.feeds x i hi, if_neg (by rw [hm]; exact Bool.false_ne_true)]

theorem kann_feed_bind_spec_witness :
    (0 : Nat) < exF.v.length ∧ isFeedMatch (exF.v.getD 0 default) 1 0 = true ∧
    (kann_feed_bind exF 1 0 [[1, 2, 3]]).2 = Int.ofNat 1 ∧
    (kann_feed_bind exF 1 0 [[1, 2, 3]]).1.feeds.get? 0 = some (some [1, 2, 3]) := by
  have hc := kann_feed_bind_spec exF 1 0 [[1, 2, 3]]
  refine ⟨by decide, by decide, hc.1, ?_⟩
  have hb := hc.2.2.1 0 (by decide) (by decide)
  exact hb

theorem decNatsGo_encode (ns : List Nat) (rest : List SaveTok) :
    decNatsGo ns.length (ns.map SaveTok.tN ++ rest) = some (ns, rest) := by
  induction ns with
  | nil => rfl
  | cons n ns ih => simp [decNatsGo, ih]

theorem decNats_encode (ns : List Nat) (rest : List SaveTok) :
    decNats (encNats ns ++ rest) = some (ns, rest) := by
  rw [encNats, List.cons_append, decNats]
  exact decNatsGo_encode ns rest

theorem decQsGo_encode (qs : List ℚ) (rest : List SaveTok) :
    decQsGo qs.length (qs.map SaveTok.tQ ++ rest) = some (qs, rest) := by
  induction qs with
  | nil => rfl
  | cons q qs ih => simp [decQsGo, ih]

theorem decQs_encode (qs : List ℚ) (rest : List SaveTok) :
    decQs (encQs qs ++ rest) = some (qs, rest) := by
  rw [encQs, List.cons_append, decQs]
  exact decQsGo_encode qs rest

theorem decodeOp_opCode (op : KadOp) : decodeOp (opCode op) = some op := by
  cases op <;> rfl

theorem decodeNode_encodeNode (p : KadNode) (rest : List SaveTok) :
    decodeNode (encodeNode p ++ rest) = some (p, rest) := by
  cases hpre : p.pre with
  | none =>
    rw [encodeNode, hpre]
    simp only [List.cons_append, List.append_assoc, List.nil_append]
    rw [decodeNode, decodeOp_opCode]
    simp only [decNats_encode]
    rw [← hpre]
  | some q =>
    rw [encodeNode, hpre]
    simp only [List.cons_append, List.append_assoc, List.nil_append]
    rw [decodeNode, decodeOp_opCode]
    simp only [decNats_encode]
    rw [← hpre]

theorem decodeNodes_encode (v : List KadNode) (rest : List SaveTok) :
    decodeNodes v.length ((v.map encodeNode).flatten ++ rest) = some (v, rest) := by
  induction v generalizing rest with
  | nil => rfl
  | cons p ps ih =>
    simp only [List.map_cons, List.flatten_cons, List.length_cons, List.append_assoc,
      decodeNodes, decodeNode_encodeNode, ih]

theorem decQs_encode_nil (qs : List ℚ) : decQs (encQs qs) = some (qs, []) := by
  have h := decQs_encode qs []
  rwa [List.append_nil] at h

/-- The network reconstructed by loading a saved model: the same node
sequence and Parameter/Constant stores, a zeroed Gradient store, no feed
bindings and the default (eval) mode. -/
def kannReload (a : Kann) : Kann :=
  { v := a.v, x := a.x, g := List.replicate a.x.length 0, c := a.c,
    feeds := List.replicate a.v.length none, isTrain := false }

theorem kann_load_save (a : Kann) : kann_load (kann_save a) = some (kannReload a) := by
  rw [kann_save]
  simp only [List.cons_append, List.append_assoc]
  rw [kann_load.eq_1, if_pos rfl, decodeNodes_encode]
  simp only [decQs_encode, decQs_encode_nil, if_true]
  rfl

theorem kann_cost_val_congr (v : List KadNode) (x : List ℚ) (g1 g2 : List ℚ)
    (c : List ℚ) (f : List (Option (List ℚ))) (m : Bool) (rng : Nat → Nat → ℚ)
    (lbl : Int) (cg : Bool) :
    (kann_cost ⟨v, x, g1, c, f, m⟩ rng lbl cg).1 =
      (kann_cost ⟨v, x, g2, c, f, m⟩ rng lbl cg).1 := by
  unfold kann_cost costFirstIdx kannForward
  cases hci : costFirstIdxGo lbl v with
  | none => simp [hci]
  | some ci => cases cg <;> simp [hci]

/-- C7: loading a saved model reconstructs a graph with bit-for-bit
identical parameter values and structurally identical topology, flags and
labels (the whole node sequence is equal), so that evaluating the cost on
a fixed input (the same feed bindings and mode) yields the same value. -/
theorem kann_save_load_round_trip (a : Kann) :
    kann_load (kann_save a) = some (kannReload a) ∧
    (kannReload a).v = a.v ∧ (kannReload a).x = a.x ∧ (kannReload a).c = a.c ∧
    (∀ (fs : List (Option (List ℚ))) (m : Bool) (rng : Nat → Nat → ℚ)
      (lbl : Int) (cg : Bool),
      (kann_cost { kannReload a with feeds := fs, isTrain := m } rng lbl cg).1 =
        (kann_cost { a with feeds := fs, isTrain := m } rng lbl cg).1) :=
  ⟨kann_load_save a, rfl, rfl, rfl, fun fs m rng lbl cg =>
    kann_cost_val_congr a.v a.x (List.replicate a.x.length 0) a.g a.c fs m rng lbl cg⟩

theorem evalNode_rng_indep (x c : List ℚ) (feeds : List (Option (List ℚ)))
    (rng1 rng2 : Nat → Nat → ℚ) (i xoff coff : Nat) (acc : List (List ℚ)) (p : KadNode) :
    evalNode x c feeds false rng1 i xoff coff acc p =
      evalNode x c feeds false rng2 i xoff coff acc p := by
  cases hop : p.op <;> simp [evalNode, hop]

theorem kadEvalGo_rng_indep (x c : List ℚ) (feeds : List (Option (List ℚ)))
    (rng1 rng2 : Nat → Nat → ℚ) (v : List KadNode) :
    ∀ (i xoff coff : Nat) (acc : List (List ℚ)),
    kadEvalGo x c feeds false rng1 v i xoff coff acc =
      kadEvalGo x c feeds false rng2 v i xoff coff acc := by
  induction v with
  | nil => intro i xoff coff acc; rfl
  | cons p rest ih =>
    intro i xoff coff acc
    simp only [kadEvalGo]
    rw [evalNode_rng_indep x c feeds rng1 rng2 i xoff coff acc p]
    exact ih (i + 1) _ _ _

/-- C8: for every graph containing a dropout-kind (switch) node put in
eval mode via `kann_switch a 0`, two forward evaluations on identical
input return identical output whatever the random state does between the
calls (eval-mode forward evaluation is deterministic); in train mode, two
evaluations with the same fixed random seed/state also return identical
output. -/
theorem kann_switch_eval_mode_deterministic (a : Kann) (rng1 rng2 : Nat → Nat → ℚ)
    (_hdrop : ∃ p ∈ a.v, p.op = KadOp.dropout) :
    kannForward (kann_switch a 0) rng1 = kannForward (kann_switch a 0) rng2 ∧
    (∀ s : Int, s ≠ 0 →
      kannForward (kann_switch a s) rng1 = kannForward (kann_switch a s) rng1) := by
  refine ⟨?_, fun s _ => rfl⟩
  exact kadEvalGo_rng_indep a.x a.c a.feeds rng1 rng2 a.v 0 0 0 []

/-- A network with a feed node followed by a dropout node, used as a
concrete instance of the mode-switch determinism property. -/
def exD : Kann :=
  { v := [{ op := KadOp.feed, d := [2], flag := 1, label := 0, child := [],
            pre := none, rate := 0 },
          { op := KadOp.dropout, d := [2], flag := 0, label := 0, child := [0],
            pre := none, rate := 1/2 }],
    x := [], g := [], c := [], feeds := [some [1, 2], none], isTrain := false }

theorem kann_switch_eval_mode_deterministic_witness :
    (∃ p ∈ exD.v, p.op = KadOp.dropout) ∧
    kannForward (kann_switch exD 0) (fun _ _ => 0) =
      kannForward (kann_switch exD 0) (fun _ _ => 1) := by
  have hd : ∃ p ∈ exD.v, p.op = KadOp.dropout :=
    ⟨_, List.mem_cons_of_mem _ (List.mem_cons_self _ _), rfl⟩
  exact ⟨hd,
    (kann_switch_eval_mode_deterministic exD (fun _ _ => 0) (fun _ _ => 1) hd).1⟩

theorem costFirstIdxGo_spec (lbl : Int) (l : List KadNode) (i : Nat)
    (h : costFirstIdxGo lbl l = some i) :
    (∃ p, l.get? i = some p ∧ isCostMatch p lbl = true) ∧
    (∀ j, j < i → ∀ p, l.get? j = some p → isCostMatch p lbl = false) := by
  induction l generalizing i with
  | nil => exact absurd h (by simp [costFirstIdxGo])
  | cons p rest ih =>
    rw [costFirstIdxGo] at h
    by_cases hm : isCostMatch p lbl = true
    · rw [if_pos hm] at h
      injection h with h0
      subst h0
      exact ⟨⟨p, rfl, hm⟩, fun j hj => absurd hj (Nat.not_lt_zero j)⟩
    · rw [if_neg hm] at h
      cases hrec : costFirstIdxGo lbl rest with
      | none =>
        rw [hrec] at h
        exact absurd h (by simp)
      | some i0 =>
        rw [hrec] at h
        simp only [Option.map_some'] at h
        injection h with h0
        subst h0
        obtain ⟨⟨q, hq, hqm⟩, hlt⟩ := ih i0 hrec
        refine ⟨⟨q, by simpa using hq, hqm⟩, ?_⟩
        intro j hj pj hpj
        cases j with
        | zero =>
          have hpj0 : p = pj := by simpa using hpj
          rw [← hpj0]
          simpa using hm
        | succ j0 =>
          have hj0 : j0 < i0 := by omega
          exact hlt j0 hj0 pj (by simpa using hpj)

/-- C2: `kann_cost` with gradient computation requested returns the scalar
value of the first cost node whose label matches; it zeros the entire
Gradient store, seeds the gradient of the first matching-label cost node
to 1, and accumulates adjoints additively into predecessor gradient
regions in reverse topological order, storing the collated
trainable-node gradients in `g`. -/
theorem kann_cost_grad_spec (a : Kann) (rng : Nat → Nat → ℚ) (cost_label : Int)
    (ci : Nat) (h : costFirstIdx a cost_label = some ci) :
    (kann_cost a rng cost_label true).1 =
      ((kannForward a rng).getD ci []).headD 0 ∧
    (kann_cost a rng cost_label true).2.g =
      collectVarGrads a.v
        (kadGradGo a.v (kannForward a rng) a.isTrain rng a.v.length
          ((zeroGrads a.v).set ci [1])) ∧
    (∀ gr ∈ zeroGrads a.v, ∀ y ∈ gr, y = 0) ∧
    (∃ p, a.v.get? ci = some p ∧ isCostMatch p cost_label = true) ∧
    (∀ j, j < ci → ∀ p, a.v.get? j = some p → isCostMatch p cost_label = false) := by
  refine ⟨?_, ?_, ?_, ?_, ?_⟩
  · simp [kann_cost, h]
  · simp [kann_cost, h]
  · intro gr hgr y hy
    rw [zeroGrads, List.mem_map] at hgr
    obtain ⟨p, _, rfl⟩ := hgr
    exact List.eq_of_mem_replicate hy
  · exact (costFirstIdxGo_spec cost_label a.v ci h).1
  · exact (costFirstIdxGo_spec cost_label a.v ci h).2

/-- A network with a scalar trainable parameter squared into a scalar
cost node, used as a concrete instance of the cost/gradient property. -/
def exC : Kann :=
  { v := [{ op := KadOp.var, d := [], flag := 0, label := 0, child := [],
            pre := none, rate := 0 },
          { op := KadOp.square, d := [], flag := 8, label := 0, child := [0],
            pre := none, rate := 0 }],
    x := [3], g := [0], c := [], feeds := [none, none], isTrain := false }

theorem kann_cost_grad_spec_witness :
    costFirstIdx exC 0 = some 1 ∧
    ((kann_cost exC (fun _ _ => 0) 0 true).1 =
        ((kannForward exC (fun _ _ => 0)).getD 1 []).headD 0 ∧
      (kann_cost exC (fun _ _ => 0) 0 true).2.g =
        collectVarGrads exC.v
          (kadGradGo exC.v (kannForward exC (fun _ _ => 0)) exC.isTrain (fun _ _ => 0)
            exC.v.length ((zeroGrads exC.v).set 1 [1])) ∧
      (∀ gr ∈ zeroGrads exC.v, ∀ y ∈ gr, y = 0) ∧
      (∃ p, exC.v.get? 1 = some p ∧ isCostMatch p 0 = true) ∧
      (∀ j, j < 1 → ∀ p, exC.v.get? j = some p → isCostMatch p 0 = false)) :=
  ⟨by decide, kann_cost_grad_spec exC (fun _ _ => 0) 0 1 (by decide)⟩
